import Mathlib

/-!
# Verification of the mini-crm-backend segmentation and dispatch engines

Shallow embedding of the campaign controller (`src/controllers/campaigns.js`)
and the batch email dispatcher (`src/services/emailService.js`).

Modelling conventions:
* JavaScript rule values (`string | number`) become the `Value` sum type; JS
  numbers are rationals, and `NaN` is represented by `Option ℚ = none` at the
  points where `parseFloat` can produce it.
* `parseFloat` is modelled for optionally signed decimal numerals with an
  optional fractional part (no exponent notation), which covers every value
  the controller is exercised with; any other string parses to `none` (NaN).
* The MongoDB query object built by `calculateTargetAudience` becomes a list
  of conditions interpreted as a conjunction (`{}` when the list is empty,
  matching the source's `if (mongoQuery.$and.length === 0) mongoQuery = {}`).
* `$regex` conditions built from `contains`/`startsWith`/`endsWith` are
  evaluated as literal case-insensitive substring/prefix/suffix tests, the
  reading of the source for pattern values without regex metacharacters; a
  numeric value handed to `$regex` (which MongoDB would reject) matches
  nothing.
-/

namespace MiniCrm

/-- A JavaScript rule value: `z.union([z.string(), z.number()])`. -/
inductive Value where
  | vstr (s : String)
  | vnum (q : ℚ)
deriving DecidableEq

/-- JS whitespace recognised by `parseFloat` / `trim` (ASCII subset). -/
def jsWsChar (c : Char) : Bool :=
  c == ' ' || c == '\t' || c == '\n' || c == '\r' || c == '\x0b' || c == '\x0c'

/-- Longest leading run of decimal digits, returned as digit values. -/
def takeDigits : List Char → List Nat × List Char
  | [] => ([], [])
  | c :: cs =>
    if c.isDigit then
      let (ds, rest) := takeDigits cs
      ((c.toNat - 48) :: ds, rest)
    else ([], c :: cs)

/-- Digits to the natural number they denote. -/
def digitsToNat (ds : List Nat) : Nat := ds.foldl (fun a d => a * 10 + d) 0

/-- `parseFloat` on a string: skip leading whitespace, optional sign, integer
digits, optional `.` and fraction digits; `none` is NaN. -/
def parseFloatStr (s : String) : Option ℚ :=
  let cs := s.toList.dropWhile jsWsChar
  let signed : ℚ × List Char :=
    match cs with
    | '-' :: rest => (-1, rest)
    | '+' :: rest => (1, rest)
    | _ => (1, cs)
  let ipRest := takeDigits signed.2
  let fp : List Nat :=
    match ipRest.2 with
    | '.' :: rest => (takeDigits rest).1
    | _ => []
  if ipRest.1 = [] ∧ fp = [] then none
  else
    some (signed.1 * ((digitsToNat ipRest.1 : ℚ) + (digitsToNat fp : ℚ) / (10 : ℚ) ^ fp.length))

/-- `parseFloat(rule.value)`: numbers pass through, strings are parsed. -/
def parseFloat : Value → Option ℚ
  | .vnum q => some q
  | .vstr s => parseFloatStr s

/-- The `field` enum of a segment rule. -/
inductive Field where
  | name | email | phone | location | totalSpendings | tags
deriving DecidableEq

/-- The `operator` enum of a segment rule. -/
inductive Operator where
  | equals | contains | startsWith | endsWith | greaterThan | lessThan
deriving DecidableEq

/-- The `logicOperator` enum of a segment rule. -/
inductive LogicOp where
  | AND | OR
deriving DecidableEq

/-- One segment rule; `logicOperator` is optional in the zod schema. -/
structure SegmentRule where
  field : Field
  operator : Operator
  value : Value
  logicOperator : Option LogicOp
deriving DecidableEq

/-- A customer document.  `name` is `Option String` because the personalizer
guards on its truthiness (`customer.name ? ... : 'Valued Customer'`). -/
structure Customer where
  id : Nat
  name : Option String
  email : String
  phone : String
  location : String
  tags : List String
deriving DecidableEq

/-- The stored string-valued field addressed by a string condition. -/
def strField (c : Customer) : Field → Option String
  | .name => c.name
  | .email => some c.email
  | .phone => some c.phone
  | .location => some c.location
  | _ => none

/-- A leaf condition of the compiled MongoDB query. -/
inductive Leaf where
  | fieldEq (f : Field) (v : Value)
  | fieldContains (f : Field) (v : Value)
  | fieldStartsWith (f : Field) (v : Value)
  | fieldEndsWith (f : Field) (v : Value)
  | tagIn (v : Value)
deriving DecidableEq

/-- `buildStringCondition(field, operator, value)` from the controller. -/
def buildStringCondition (field : Field) (operator : Operator) (value : Value) : Leaf :=
  match operator with
  | .equals => .fieldEq field value
  | .contains => .fieldContains field value
  | .startsWith => .fieldStartsWith field value
  | .endsWith => .fieldEndsWith field value
  | _ => .fieldEq field value

/-- The `switch (rule.field)` of the audience loop.  A `totalSpendings` rule
is skipped by `continue` before any condition is built, so its image here is
never consulted. -/
def ruleCondition (r : SegmentRule) : Leaf :=
  match r.field with
  | .name => buildStringCondition .name r.operator r.value
  | .email => buildStringCondition .email r.operator r.value
  | .phone => buildStringCondition .phone r.operator r.value
  | .location => buildStringCondition .location r.operator r.value
  | .tags => .tagIn r.value
  | .totalSpendings => .fieldEq .totalSpendings r.value

/-- Case-folded character list of a string (the `i` regex option). -/
def ciChars (s : String) : List Char := s.toList.map Char.toLower

/-- Substring test on character lists. -/
def isSubstr (pat : List Char) : List Char → Bool
  | [] => pat.isEmpty
  | c :: rest => pat.isPrefixOf (c :: rest) || isSubstr pat rest

/-- Evaluate one leaf condition against a customer document. -/
def evalLeaf (c : Customer) : Leaf → Bool
  | .fieldEq f v =>
    match strField c f, v with
    | some s, .vstr t => s == t
    | _, _ => false
  | .fieldContains f v =>
    match strField c f, v with
    | some s, .vstr t => isSubstr (ciChars t) (ciChars s)
    | _, _ => false
  | .fieldStartsWith f v =>
    match strField c f, v with
    | some s, .vstr t => (ciChars t).isPrefixOf (ciChars s)
    | _, _ => false
  | .fieldEndsWith f v =>
    match strField c f, v with
    | some s, .vstr t => (ciChars t).isSuffixOf (ciChars s)
    | _, _ => false
  | .tagIn v =>
    match v with
    | .vstr t => c.tags.contains t
    | .vnum _ => false

/-- A member of the top-level `$and` list: a leaf or an `$or` group. -/
inductive Cond where
  | leaf (l : Leaf)
  | orGroup (ls : List Leaf)
deriving DecidableEq

/-- Evaluate a condition against a customer. -/
def evalCond (c : Customer) : Cond → Bool
  | .leaf l => evalLeaf c l
  | .orGroup ls => ls.any (evalLeaf c)

/-- Evaluate a compiled query (conjunction; empty list is the match-all `{}`). -/
def evalQuery (q : List Cond) (c : Customer) : Bool := q.all (evalCond c)

/-- The mutable state of the query-building loop:
`mongoQuery.$and`, `currentGroup.$or`, and `isUsingOr`. -/
structure QueryState where
  andList : List Cond
  currentGroup : List Leaf
  isUsingOr : Bool
deriving DecidableEq

/-- One iteration of the `for` loop over `segmentRules` (index `i` of `n`).
`totalSpendings` rules hit `continue` and leave the state untouched. -/
def stepRule (n i : Nat) (st : QueryState) (r : SegmentRule) : QueryState :=
  if r.field = Field.totalSpendings then st
  else
    let condition := ruleCondition r
    if 0 < i ∧ r.logicOperator = some LogicOp.OR then
      ⟨st.andList, st.currentGroup ++ [condition], true⟩
    else
      let closed : QueryState :=
        if st.isUsingOr ∧ st.currentGroup ≠ [] then
          ⟨st.andList ++ [Cond.orGroup st.currentGroup], [], false⟩
        else st
      if r.logicOperator = some LogicOp.OR ∧ i < n - 1 then
        ⟨closed.andList, closed.currentGroup ++ [condition], true⟩
      else
        ⟨closed.andList ++ [Cond.leaf condition], closed.currentGroup, closed.isUsingOr⟩

/-- Run the query-building loop over the whole (indexed) rule list. -/
def buildQueryState (rules : List SegmentRule) : QueryState :=
  rules.enum.foldl (fun st p => stepRule rules.length p.1 st p.2) ⟨[], [], false⟩

/-- The trailing flush: `if (isUsingOr && currentGroup.$or.length > 0) push`. -/
def finalizeQuery (st : QueryState) : List Cond :=
  if st.isUsingOr ∧ st.currentGroup ≠ [] then st.andList ++ [Cond.orGroup st.currentGroup]
  else st.andList

/-- The structural MongoDB query built by `calculateTargetAudience`. -/
def buildMongoQuery (rules : List SegmentRule) : List Cond :=
  finalizeQuery (buildQueryState rules)

/-- One spend rule applied to a computed total: the body of the inner `switch`
in the residual filter.  A JS `NaN` comparison is false, so a `greaterThan` or
`lessThan` rule whose value does not parse never excludes anyone, while an
`equals` rule (`totalSpendings !== parseFloat(value)` true for NaN) excludes
everyone.  Operators without a `case` leave `includeCustomer` untouched. -/
def passesSpendRule (r : SegmentRule) (totalSpendings : ℚ) : Bool :=
  match r.operator with
  | .equals =>
    match parseFloat r.value with
    | some v => decide (totalSpendings = v)
    | none => false
  | .greaterThan =>
    match parseFloat r.value with
    | some v => !(decide (totalSpendings ≤ v))
    | none => true
  | .lessThan =>
    match parseFloat r.value with
    | some v => !(decide (v ≤ totalSpendings))
    | none => true
  | _ => true

/-- `calculateTargetAudience(segmentRules)`: run the structural query against
the customer collection, then apply the residual spend filter.
`calculateTotalSpendings` stands for the order-price aggregation capability. -/
def calculateTargetAudience (segmentRules : List SegmentRule) (customers : List Customer)
    (calculateTotalSpendings : Customer → ℚ) : List Customer :=
  let mongoQuery := buildMongoQuery segmentRules
  let matched := customers.filter (fun c => evalQuery mongoQuery c)
  let spendingRules := segmentRules.filter (fun r => decide (r.field = Field.totalSpendings))
  if spendingRules.length > 0 then
    matched.filter (fun c =>
      spendingRules.all (fun r => passesSpendRule r (calculateTotalSpendings c)))
  else
    matched

/-- The left-to-right fold of spec §4.1, written from the spec's words for
comparison with `buildMongoQuery`: a rule joins the current OR-group if its
own `logicOperator` is OR; otherwise the current OR-group (if non-empty) is
closed into the AND-list and a fresh single-condition group starts; any open
group is flushed at the end; `totalSpendings` rules are routed to the
residual filter and skipped. -/
def specFoldCompile (rules : List SegmentRule) : List Cond :=
  let f := fun (st : List Cond × List Leaf) (r : SegmentRule) =>
    if r.field = Field.totalSpendings then st
    else
      let c := ruleCondition r
      if r.logicOperator = some LogicOp.OR then (st.1, st.2 ++ [c])
      else ((if st.2 = [] then st.1 else st.1 ++ [Cond.orGroup st.2]), [c])
  let st := rules.foldl f ([], [])
  if st.2 = [] then st.1 else st.1 ++ [Cond.orGroup st.2]

/-- Whether the loop attaches the rule at index `i` (of `n`) to an OR-group:
either branch `i > 0 && rule.logicOperator === 'OR'` or branch
`rule.logicOperator === 'OR' && i < n - 1`. -/
def isOrMember (n i : Nat) (r : SegmentRule) : Bool :=
  decide (r.logicOperator = some LogicOp.OR) && (decide (0 < i) || decide (i + 1 < n))

/-- Declarative form of the query the loop actually builds, over the indexed
rule list with `totalSpendings` rules removed: each maximal consecutive run
of OR-attached rules becomes one `$or` group, every other rule contributes
its condition directly to the AND-list. -/
def runsCompile (n : Nat) : List (Nat × SegmentRule) → List Cond
  | [] => []
  | (i, r) :: rest =>
    if isOrMember n i r then
      Cond.orGroup (((i, r) :: rest.takeWhile (fun p => isOrMember n p.1 p.2)).map
          (fun p => ruleCondition p.2)) ::
        runsCompile n (rest.dropWhile (fun p => isOrMember n p.1 p.2))
    else
      Cond.leaf (ruleCondition r) :: runsCompile n rest
termination_by l => l.length
decreasing_by
  · simpa using Nat.lt_succ_of_le (List.dropWhile_suffix _).sublist.length_le
  · simp

/-- `buildMongoQuery` re-expressed by OR-runs (used to state the amended C1). -/
def amendedCompile (rules : List SegmentRule) : List Cond :=
  runsCompile rules.length
    (rules.enum.filter (fun p => !decide (p.2.field = Field.totalSpendings)))

lemma stepRule_spend (n i : Nat) (st : QueryState) (r : SegmentRule)
    (h : r.field = Field.totalSpendings) : stepRule n i st r = st := by
  simp [stepRule, h]

lemma foldl_step_filter (n : Nat) (ps : List (Nat × SegmentRule)) (st : QueryState) :
    ps.foldl (fun st p => stepRule n p.1 st p.2) st =
      (ps.filter (fun p => !decide (p.2.field = Field.totalSpendings))).foldl
        (fun st p => stepRule n p.1 st p.2) st := by
  induction ps generalizing st with
  | nil => rfl
  | cons p t ih =>
    by_cases h : p.2.field = Field.totalSpendings
    · simp [List.filter_cons, h, stepRule_spend _ _ _ _ h, ih]
    · simp [List.filter_cons, h, ih]

lemma stepRule_closed_member (n i : Nat) (A : List Cond) (r : SegmentRule)
    (hf : r.field ≠ Field.totalSpendings) (hm : isOrMember n i r = true) :
    stepRule n i ⟨A, [], false⟩ r = ⟨A, [ruleCondition r], true⟩ := by
  simp only [isOrMember, Bool.and_eq_true, Bool.or_eq_true, decide_eq_true_eq] at hm
  obtain ⟨hor, hi⟩ := hm
  rcases hi with hi | hi
  · simp [stepRule, hf, hi, hor]
  · rcases Nat.eq_zero_or_pos i with h0 | h0
    · subst h0
      have : 0 < n - 1 := by omega
      simp [stepRule, hf, hor, this]
    · simp [stepRule, hf, h0, hor]

lemma stepRule_closed_nonmember (n i : Nat) (A : List Cond) (r : SegmentRule)
    (hf : r.field ≠ Field.totalSpendings) (hm : isOrMember n i r = false) :
    stepRule n i ⟨A, [], false⟩ r = ⟨A ++ [Cond.leaf (ruleCondition r)], [], false⟩ := by
  simp only [isOrMember, Bool.and_eq_false_iff, Bool.or_eq_false_iff, decide_eq_false_iff_not,
    not_lt] at hm
  rcases hm with hor | ⟨hi, hn⟩
  · simp [stepRule, hf, hor]
  · have h0 : i = 0 := by omega
    subst h0
    have h1 : ¬ 0 < n - 1 := by omega
    simp [stepRule, hf, h1]

lemma stepRule_open_or (n i : Nat) (A : List Cond) (G : List Leaf) (r : SegmentRule)
    (hf : r.field ≠ Field.totalSpendings) (hi : 0 < i)
    (hor : r.logicOperator = some LogicOp.OR) :
    stepRule n i ⟨A, G, true⟩ r = ⟨A, G ++ [ruleCondition r], true⟩ := by
  simp [stepRule, hf, hi, hor]

lemma stepRule_open_notor (n i : Nat) (A : List Cond) (G : List Leaf) (r : SegmentRule)
    (hf : r.field ≠ Field.totalSpendings) (hnor : ¬ r.logicOperator = some LogicOp.OR)
    (hG : G ≠ []) :
    stepRule n i ⟨A, G, true⟩ r =
      ⟨(A ++ [Cond.orGroup G]) ++ [Cond.leaf (ruleCondition r)], [], false⟩ := by
  simp [stepRule, hf, hnor, hG]

lemma finalizeQuery_closed (A : List Cond) : finalizeQuery ⟨A, [], false⟩ = A := by
  simp [finalizeQuery]

lemma finalizeQuery_open (A : List Cond) (G : List Leaf) (hG : G ≠ []) :
    finalizeQuery ⟨A, G, true⟩ = A ++ [Cond.orGroup G] := by
  simp [finalizeQuery, hG]

/-- Joint characterisation of the query-building loop from its two reachable
state shapes (group empty and flag down, or group non-empty and flag up). -/
lemma foldq_spec (n : Nat) : ∀ ps : List (Nat × SegmentRule),
    ((∀ p ∈ ps, p.2.field ≠ Field.totalSpendings) → (∀ p ∈ ps.drop 1, 0 < p.1) →
      ∀ A, finalizeQuery (ps.foldl (fun st p => stepRule n p.1 st p.2) ⟨A, [], false⟩) =
        A ++ runsCompile n ps)
    ∧ ((∀ p ∈ ps, p.2.field ≠ Field.totalSpendings) → (∀ p ∈ ps, 0 < p.1) →
      ∀ A (G : List Leaf), G ≠ [] →
      finalizeQuery (ps.foldl (fun st p => stepRule n p.1 st p.2) ⟨A, G, true⟩) =
        A ++ Cond.orGroup (G ++ (ps.takeWhile (fun p => isOrMember n p.1 p.2)).map
            (fun p => ruleCondition p.2)) ::
          runsCompile n (ps.dropWhile (fun p => isOrMember n p.1 p.2))) := by
  intro ps
  induction ps with
  | nil =>
    refine ⟨fun _ _ A => ?_, fun _ _ A G hG => ?_⟩
    · simp [finalizeQuery_closed, runsCompile]
    · simp [finalizeQuery_open A G hG, runsCompile]
  | cons p t ih =>
    obtain ⟨ihC, ihO⟩ := ih
    obtain ⟨i, r⟩ := p
    constructor
    · intro hfield hpos A
      have hf : r.field ≠ Field.totalSpendings := hfield _ (List.mem_cons_self _ _)
      have hfield' : ∀ q ∈ t, q.2.field ≠ Field.totalSpendings :=
        fun q hq => hfield q (List.mem_cons_of_mem _ hq)
      have hpos' : ∀ q ∈ t, 0 < q.1 := by simpa using hpos
      by_cases hm : isOrMember n i r = true
      · rw [List.foldl_cons, stepRule_closed_member n i A r hf hm,
          ihO hfield' hpos' A [ruleCondition r] (by simp)]
        conv_rhs => rw [runsCompile.eq_def]
        simp [hm]
      · rw [List.foldl_cons,
          stepRule_closed_nonmember n i A r hf (Bool.not_eq_true _ ▸ hm),
          ihC hfield' (fun q hq => hpos' q (List.drop_subset 1 t hq))]
        conv_rhs => rw [runsCompile.eq_def]
        simp [Bool.not_eq_true _ ▸ hm]
    · intro hfield hpos A G hG
      have hf : r.field ≠ Field.totalSpendings := hfield _ (List.mem_cons_self _ _)
      have hi : 0 < i := hpos _ (List.mem_cons_self _ _)
      have hfield' : ∀ q ∈ t, q.2.field ≠ Field.totalSpendings :=
        fun q hq => hfield q (List.mem_cons_of_mem _ hq)
      have hpos' : ∀ q ∈ t, 0 < q.1 := fun q hq => hpos q (List.mem_cons_of_mem _ hq)
      by_cases hor : r.logicOperator = some LogicOp.OR
      · have hm : isOrMember n i r = true := by simp [isOrMember, hor, hi]
        rw [List.foldl_cons, stepRule_open_or n i A G r hf hi hor,
          ihO hfield' hpos' A (G ++ [ruleCondition r]) (by simp)]
        simp [hm, List.append_assoc]
      · have hm : ¬ isOrMember n i r = true := by simp [isOrMember, hor]
        rw [List.foldl_cons, stepRule_open_notor n i A G r hf hor hG,
          ihC hfield' (fun q hq => hpos' q (List.drop_subset 1 t hq))]
        conv_rhs => rw [runsCompile.eq_def]
        simp [hm]

/-- The query the controller builds is exactly the OR-runs description. -/
lemma buildMongoQuery_eq_amendedCompile (rules : List SegmentRule) :
    buildMongoQuery rules = amendedCompile rules := by
  unfold buildMongoQuery buildQueryState amendedCompile
  rw [foldl_step_filter]
  have hfield : ∀ p ∈ rules.enum.filter (fun p => !decide (p.2.field = Field.totalSpendings)),
      p.2.field ≠ Field.totalSpendings := by
    intro p hp
    have := List.of_mem_filter hp
    simpa using this
  have hpw : (rules.enum.filter
      (fun p => !decide (p.2.field = Field.totalSpendings))).Pairwise
      (fun a b => a.1 < b.1) := by
    have h1 : (rules.enum.map Prod.fst).Pairwise (· < ·) := by
      rw [List.enum_map_fst]; exact List.pairwise_lt_range _
    exact ((List.pairwise_map).mp h1).filter _
  have hpos : ∀ p ∈ (rules.enum.filter
      (fun p => !decide (p.2.field = Field.totalSpendings))).drop 1, 0 < p.1 := by
    cases h : rules.enum.filter (fun p => !decide (p.2.field = Field.totalSpendings)) with
    | nil => simp
    | cons q t =>
      rw [h] at hpw
      intro p hp
      have := (List.pairwise_cons.mp hpw).1 p (by simpa using hp)
      omega
  have := (foldq_spec rules.length _).1 hfield hpos []
  simpa using this

lemma enum_filter_spend_eq_self (rules : List SegmentRule)
    (h : ∀ r ∈ rules, r.field ≠ Field.totalSpendings) :
    rules.enum.filter (fun p => !decide (p.2.field = Field.totalSpendings)) = rules.enum := by
  refine List.filter_eq_self.mpr (fun p hp => ?_)
  have hmem : p.2 ∈ rules := by
    rw [List.mem_enum_iff_getElem?] at hp
    exact List.getElem?_mem hp
  simpa using h _ hmem

/-- `runsCompile` on the empty list. -/
lemma runsCompile_nil (n : Nat) : runsCompile n [] = [] := by
  rw [runsCompile.eq_def]

lemma any_map_cond (c : Customer) (l : List SegmentRule) :
    (l.map ruleCondition).any (evalLeaf c) = l.any (fun r => evalLeaf c (ruleCondition r)) := by
  induction l with
  | nil => rfl
  | cons a t ih => simp [ih]

/-- A rule set in which every rule carries `logicOperator: OR` (and none is a
spend rule) compiles to a single `$or` group, so the audience is the union of
the member matches. -/
lemma singleOrGroup_union (rules : List SegmentRule) (customers : List Customer)
    (spend : Customer → ℚ) (hne : rules ≠ [])
    (h : ∀ r ∈ rules, r.logicOperator = some LogicOp.OR ∧ r.field ≠ Field.totalSpendings) :
    calculateTargetAudience rules customers spend =
      customers.filter (fun c => rules.any (fun r => evalLeaf c (ruleCondition r))) := by
  have hspend : rules.filter (fun r => decide (r.field = Field.totalSpendings)) = [] :=
    List.filter_eq_nil_iff.mpr (fun r hr => by simpa using (h r hr).2)
  have hquery : ∀ c, evalQuery (buildMongoQuery rules) c =
      rules.any (fun r => evalLeaf c (ruleCondition r)) := by
    intro c
    rw [buildMongoQuery_eq_amendedCompile]
    unfold amendedCompile
    rw [enum_filter_spend_eq_self rules (fun r hr => (h r hr).2)]
    rcases rules with _ | ⟨r, rest1⟩
    · exact absurd rfl hne
    rcases rest1 with _ | ⟨r2, rest⟩
    · show evalQuery (runsCompile 1 [(0, r)]) c = _
      have hm : isOrMember 1 0 r = false := by simp [isOrMember]
      rw [runsCompile.eq_def]
      simp [hm, runsCompile_nil, evalQuery, evalCond]
    · have hmem : ∀ p ∈ (r :: r2 :: rest).enum,
          isOrMember (r :: r2 :: rest).length p.1 p.2 = true := by
        intro p hp
        rw [List.mem_enum_iff_getElem?] at hp
        have hlt : p.1 < (r :: r2 :: rest).length := (List.getElem?_eq_some.mp hp).1
        have hor := (h p.2 (List.getElem?_mem hp)).1
        have hlen : 2 ≤ (r :: r2 :: rest).length := by simp
        rw [isOrMember]
        simp [hor]
        omega
      obtain ⟨q, tq, hq⟩ : ∃ q tq, (r :: r2 :: rest).enum = q :: tq := ⟨_, _, rfl⟩
      have hmemq : isOrMember (r :: r2 :: rest).length q.1 q.2 = true :=
        hmem q (hq ▸ List.mem_cons_self _ _)
      have hmemt : ∀ p ∈ tq, isOrMember (r :: r2 :: rest).length p.1 p.2 = true :=
        fun p hp => hmem p (hq ▸ List.mem_cons_of_mem _ hp)
      rw [hq]
      obtain ⟨i, rr⟩ := q
      rw [runsCompile.eq_def]
      simp only [hmemq, if_true]
      rw [List.takeWhile_eq_self_iff.mpr hmemt, List.dropWhile_eq_nil_iff.mpr hmemt,
        runsCompile_nil]
      simp only [evalQuery, List.all_cons, List.all_nil, Bool.and_true, evalCond]
      have hmap : ((i, rr) :: tq).map (fun p => ruleCondition p.2) =
          (r :: r2 :: rest).map ruleCondition := by
        rw [← hq,
          show (fun p : Nat × SegmentRule => ruleCondition p.2) =
            ruleCondition ∘ Prod.snd from rfl,
          ← List.map_map, List.enum_map_snd]
      rw [hmap]
      exact any_map_cond c _
  unfold calculateTargetAudience
  simp only [hspend, List.length_nil, gt_iff_lt, lt_self_iff_false, if_false]
  exact List.filter_congr (fun c _ => hquery c)

/-- The [AND, OR] rule pair on which the source's scanning loop and the spec
§4.1 fold disagree. -/
def cexRules : List SegmentRule :=
  [⟨.name, .equals, .vstr "a", some .AND⟩, ⟨.email, .equals, .vstr "b", some .OR⟩]

/-- A customer matching the first of `cexRules` but not the second. -/
def cexCustomer : Customer := ⟨1, some "a", "z", "p", "l", []⟩

/-- Claim C1 is false as stated: on the ordered rule pair
`[name equals "a" (AND), email equals "b" (OR)]` the compiled structural
predicate rejects a customer with `name = "a"`, `email = "z"`, while the
left-to-right fold of spec §4.1 accepts it (the fold would place both
conditions in one OR-group; the source instead commits the first condition
to the AND-list before the OR rule arrives). -/
theorem claim1_counterexample :
    evalQuery (buildMongoQuery cexRules) cexCustomer = false ∧
    evalQuery (specFoldCompile cexRules) cexCustomer = true := by
  constructor <;> rfl

/-- Claim C1 (amended): the compiled structural predicate equals the
OR-runs fold in which a rule joins the current OR-group exactly when its own
`logicOperator` is OR and it is either not the first rule or not also the
last; any other rule contributes its condition directly to the AND-list
(closing the open group first), spend rules are skipped without closing the
group, and an open group is flushed at the end.  Consequently, for every
non-empty rule set forming a single OR-group (all rules OR-labelled,
non-spend), the resolved audience is the union of the member matches. -/
theorem claim1_amended :
    (∀ rules : List SegmentRule, buildMongoQuery rules = amendedCompile rules) ∧
    (∀ (rules : List SegmentRule) (customers : List Customer) (spend : Customer → ℚ),
      rules ≠ [] →
      (∀ r ∈ rules, r.logicOperator = some LogicOp.OR ∧ r.field ≠ Field.totalSpendings) →
      calculateTargetAudience rules customers spend =
        customers.filter (fun c => rules.any (fun r => evalLeaf c (ruleCondition r)))) :=
  ⟨buildMongoQuery_eq_amendedCompile,
    fun rules customers spend hne h => singleOrGroup_union rules customers spend hne h⟩

/-- A two-rule OR group used to instantiate `claim1_amended`. -/
def c1wRules : List SegmentRule :=
  [⟨.name, .equals, .vstr "a", some .OR⟩, ⟨.location, .equals, .vstr "x", some .OR⟩]

/-- Three concrete customers for the `claim1_amended` witness. -/
def c1wCustomers : List Customer :=
  [⟨1, some "a", "e1", "p", "y", []⟩, ⟨2, some "b", "e2", "p", "x", []⟩,
    ⟨3, some "b", "e3", "p", "z", []⟩]

/-- Witness for `claim1_amended` at a concrete OR-group and collection. -/
theorem claim1_witness :
    buildMongoQuery c1wRules = amendedCompile c1wRules ∧
    calculateTargetAudience c1wRules c1wCustomers (fun _ => 0) =
      c1wCustomers.filter (fun c => c1wRules.any (fun r => evalLeaf c (ruleCondition r))) :=
  ⟨claim1_amended.1 c1wRules,
    claim1_amended.2 c1wRules c1wCustomers (fun _ => 0) (by decide) (by decide)⟩

/-- Customer for the C5 spend-filter scenario (total spend 150). -/
def spendCustomer : Customer := ⟨7, some "s", "s@x", "p", "l", []⟩

/-- `totalSpendings greaterThan 100`. -/
def gt100Rule : SegmentRule := ⟨.totalSpendings, .greaterThan, .vnum 100, none⟩

/-- `totalSpendings lessThan 100`. -/
def lt100Rule : SegmentRule := ⟨.totalSpendings, .lessThan, .vnum 100, none⟩

/-- Claim C5: a customer satisfying the structural predicate is in the final
resolved audience iff every `totalSpendings` rule passes on its aggregate
spend (rules ANDed regardless of `logicOperator`, which `passesSpendRule`
ignores); concretely, spend 150 is included under `greaterThan 100` and
excluded under `lessThan 100`. -/
theorem claim5_spend_filter :
    (∀ (rules : List SegmentRule) (customers : List Customer) (spend : Customer → ℚ)
      (c : Customer), c ∈ customers → evalQuery (buildMongoQuery rules) c = true →
      (c ∈ calculateTargetAudience rules customers spend ↔
        ∀ r ∈ rules, r.field = Field.totalSpendings → passesSpendRule r (spend c) = true))
    ∧ spendCustomer ∈ calculateTargetAudience [gt100Rule] [spendCustomer] (fun _ => 150)
    ∧ spendCustomer ∉ calculateTargetAudience [lt100Rule] [spendCustomer] (fun _ => 150) := by
  refine ⟨?_, by decide, by decide⟩
  intro rules customers spend c hc hq
  simp only [calculateTargetAudience]
  split
  · rename_i hlen
    simp only [List.mem_filter, hc, hq, and_true, true_and]
    rw [List.all_eq_true]
    constructor
    · intro hall r hr hf
      exact hall r (List.mem_filter.mpr ⟨hr, by simp [hf]⟩)
    · intro hall x hx
      obtain ⟨hx1, hx2⟩ := List.mem_filter.mp hx
      exact hall x hx1 (by simpa using hx2)
  · rename_i hlen
    simp only [List.mem_filter, hc, hq, and_true, true_and]
    constructor
    · intro _ r hr hf
      exfalso
      have hmem : r ∈ rules.filter (fun r => decide (r.field = Field.totalSpendings)) :=
        List.mem_filter.mpr ⟨hr, by simp [hf]⟩
      rcases hnil : rules.filter (fun r => decide (r.field = Field.totalSpendings)) with
        _ | ⟨a, t⟩
      · rw [hnil] at hmem
        exact absurd hmem (List.not_mem_nil r)
      · rw [hnil] at hlen
        simp at hlen
    · intro _
      trivial

/-- Witness for the universally quantified part of `claim5_spend_filter`. -/
theorem claim5_witness :
    spendCustomer ∈ [spendCustomer] ∧
    evalQuery (buildMongoQuery [gt100Rule]) spendCustomer = true ∧
    (spendCustomer ∈ calculateTargetAudience [gt100Rule] [spendCustomer] (fun _ => 150) ↔
      ∀ r ∈ [gt100Rule], r.field = Field.totalSpendings →
        passesSpendRule r ((fun _ : Customer => (150 : ℚ)) spendCustomer) = true) :=
  ⟨by decide, by decide,
    claim5_spend_filter.1 [gt100Rule] [spendCustomer] (fun _ => 150) spendCustomer
      (by decide) (by decide)⟩

/-- A `totalSpendings greaterThan` rule whose value does not parse. -/
def badSpendRule : SegmentRule := ⟨.totalSpendings, .greaterThan, .vstr "not-a-number", none⟩

/-- A `totalSpendings equals` rule whose value does not parse. -/
def badEqRule : SegmentRule := ⟨.totalSpendings, .equals, .vstr "oops", none⟩

/-- Customer for the C8 counterexample (total spend 150). -/
def c8Customer : Customer := ⟨9, some "n", "n@x", "p", "l", []⟩

/-- Claim C8 is false as stated: the numeric-operator rule
`totalSpendings greaterThan "not-a-number"` has an unparseable value, yet it
admits this customer into the audience (in JS, `150 <= NaN` is false, so the
exclusion branch never fires), whereas the claim says such a rule never
admits any customer. -/
theorem claim8_counterexample :
    calculateTargetAudience [badSpendRule] [c8Customer] (fun _ => 150) = [c8Customer] := by
  decide

/-- Claim C8 (amended): audience resolution never crashes on an unparseable
numeric value, but the dropped condition is vacuously true rather than
unsatisfiable for the ordering operators: a `greaterThan` or `lessThan`
spend rule with unparseable value admits every structurally matching
customer, while an `equals` spend rule with unparseable value matches no
customer (`totalSpendings !== NaN` always holds). -/
theorem claim8_amended :
    (∀ (r : SegmentRule) (t : ℚ), r.field = Field.totalSpendings →
      parseFloat r.value = none →
      (((r.operator = Operator.greaterThan ∨ r.operator = Operator.lessThan) →
          passesSpendRule r t = true) ∧
        (r.operator = Operator.equals → passesSpendRule r t = false)))
    ∧ (∀ (r : SegmentRule) (customers : List Customer) (spend : Customer → ℚ),
        r.field = Field.totalSpendings → parseFloat r.value = none →
        (((r.operator = Operator.greaterThan ∨ r.operator = Operator.lessThan) →
            calculateTargetAudience [r] customers spend = customers) ∧
          (r.operator = Operator.equals →
            calculateTargetAudience [r] customers spend = []))) := by
  have hpass : ∀ (r : SegmentRule) (t : ℚ), parseFloat r.value = none →
      (((r.operator = Operator.greaterThan ∨ r.operator = Operator.lessThan) →
          passesSpendRule r t = true) ∧
        (r.operator = Operator.equals → passesSpendRule r t = false)) := by
    intro r t hp
    constructor
    · rintro (hop | hop) <;> simp [passesSpendRule, hop, hp]
    · intro hop
      simp [passesSpendRule, hop, hp]
  have hquery : ∀ r : SegmentRule, r.field = Field.totalSpendings →
      buildMongoQuery [r] = [] := by
    intro r hf
    unfold buildMongoQuery buildQueryState
    rw [show ([r].enum) = [(0, r)] from rfl, List.foldl_cons, List.foldl_nil,
      stepRule_spend _ _ _ _ hf]
    exact finalizeQuery_closed []
  refine ⟨fun r t _ hp => hpass r t hp, ?_⟩
  intro r customers spend hf hp
  have hcalc : ∀ b : Bool, (∀ t : ℚ, passesSpendRule r t = b) →
      calculateTargetAudience [r] customers spend =
        customers.filter (fun _ => b) := by
    intro b hb
    simp only [calculateTargetAudience, hquery r hf]
    have hsr : [r].filter (fun r => decide (r.field = Field.totalSpendings)) = [r] := by
      simp [hf]
    rw [hsr]
    simp [evalQuery, hb]
  constructor
  · intro hop
    rw [hcalc true (fun t => (hpass r t hp).1 hop)]
    simp
  · intro hop
    rw [hcalc false (fun t => (hpass r t hp).2 hop)]
    simp

/-- Witness for `claim8_amended` at the concrete unparseable rules. -/
theorem claim8_witness :
    passesSpendRule badSpendRule 150 = true ∧
    passesSpendRule badEqRule 150 = false ∧
    calculateTargetAudience [badSpendRule] [c8Customer] (fun _ => 150) = [c8Customer] ∧
    calculateTargetAudience [badEqRule] [c8Customer] (fun _ => 150) = [] :=
  ⟨(claim8_amended.1 badSpendRule 150 rfl (by decide)).1 (Or.inl rfl),
    (claim8_amended.1 badEqRule 150 rfl (by decide)).2 rfl,
    (claim8_amended.2 badSpendRule [c8Customer] (fun _ => 150) rfl (by decide)).1 (Or.inl rfl),
    (claim8_amended.2 badEqRule [c8Customer] (fun _ => 150) rfl (by decide)).2 rfl⟩

/-- Campaign status enum of the Mongoose schema. -/
inductive CampaignStatus where
  | draft | scheduled | sent | failed
deriving DecidableEq

/-- Per-recipient outcome recorded in the communication log. -/
inductive LogStatus where
  | delivered | failed
deriving DecidableEq

/-- One `communicationLog` entry. -/
structure LogEntry where
  customerId : Nat
  status : LogStatus
  deliveredAt : Option Nat
deriving DecidableEq

/-- A campaign document (timestamps as abstract `Nat` instants). -/
structure Campaign where
  id : Nat
  name : String
  description : String
  subject : String
  message : String
  segmentRules : List SegmentRule
  status : CampaignStatus
  scheduledFor : Option Nat
  sentAt : Option Nat
  targetAudience : Nat
  delivered : Nat
  failed : Nat
  communicationLog : List LogEntry
deriving DecidableEq

/-- The case-folded body token `/{customername}/gi`. -/
def customerNameTok : List Char := "{customername}".toList

/-- The case-folded subject token `/{customerFirstName}/gi`. -/
def firstNameTok : List Char := "{customerfirstname}".toList

/-- `customer.name ? customer.name.split(' ')[0] : 'Valued Customer'`;
`split(' ')[0]` is the longest space-free prefix of the name. -/
def firstNameOr : Option String → String
  | none => "Valued Customer"
  | some s =>
    if s = "" then "Valued Customer"
    else (s.toList.takeWhile (fun c => !(c == ' '))).asString

/-- Global case-insensitive replacement of the (non-empty, already
case-folded) pattern, scanning left to right without rescanning the
replacement, as `String.prototype.replace` with a `gi` regex does. -/
def replaceCI (pat repl : List Char) : List Char → List Char
  | [] => []
  | c :: rest =>
    if pat ≠ [] ∧ ((c :: rest).take pat.length).map Char.toLower = pat then
      repl ++ replaceCI pat repl (rest.drop (pat.length - 1))
    else c :: replaceCI pat repl rest
termination_by l => l.length
decreasing_by
  · simp only [List.length_drop, List.length_cons]
    omega
  · simp

/-- `.replace(/\n/g, '<br>')`. -/
def newlineToBr : List Char → List Char
  | [] => []
  | c :: rest => (if c = '\n' then "<br>".toList else [c]) ++ newlineToBr rest

/-- Advance past the first `'>'`, if any (`[^>]*>` after a `'<'`). -/
def dropTag : List Char → Option (List Char)
  | [] => none
  | c :: rest => if c = '>' then some rest else dropTag rest

lemma dropTag_length : ∀ (l l' : List Char), dropTag l = some l' → l'.length < l.length := by
  intro l
  induction l with
  | nil => intro l' h; simp [dropTag] at h
  | cons c rest ih =>
    intro l' h
    rw [dropTag] at h
    by_cases hc : c = '>'
    · simp only [hc, if_true, Option.some.injEq] at h
      subst h
      simp
    · simp only [hc, if_false] at h
      exact Nat.lt_trans (ih l' h) (by simp)

/-- `.replace(/<[^>]*>/g, '')`: at each `'<'` with a later `'>'`, drop
through the first `'>'`; a `'<'` with no closing `'>'` is kept. -/
def stripTags : List Char → List Char
  | [] => []
  | c :: rest =>
    if c = '<' then
      match h : dropTag rest with
      | some rest' => stripTags rest'
      | none => c :: stripTags rest
    else c :: stripTags rest
termination_by l => l.length
decreasing_by
  · exact Nat.lt_trans (dropTag_length _ _ h) (by simp)
  · simp
  · simp

/-- The personalized body: token substitution, then newline-to-`<br>`. -/
def personalizeBody (message : String) (name : Option String) : List Char :=
  newlineToBr (replaceCI customerNameTok (firstNameOr name).toList message.toList)

/-- Leading part of the HTML wrapper template literal, up to the title. -/
def htmlPreTitle : List Char :=
  "\n            <html>\n            <head>\n              <title>".toList

/-- Middle part of the HTML wrapper, between title and body content. -/
def htmlMid : List Char :=
  "</title>\n            </head>\n            <body>\n              ".toList

/-- Trailing part of the HTML wrapper. -/
def htmlEnd : List Char :=
  "\n            </body>\n            </html>\n          ".toList

/-- The `htmlBody` template literal of the dispatcher. -/
def htmlBodyChars (campaign : Campaign) (customer : Customer) : List Char :=
  htmlPreTitle ++ campaign.subject.toList ++ htmlMid ++
    personalizeBody campaign.message customer.name ++ htmlEnd

/-- `personalizedMessage.replace(/<[^>]*>/g, '')`: the plain-text variant. -/
def plainTextChars (campaign : Campaign) (customer : Customer) : List Char :=
  stripTags (personalizeBody campaign.message customer.name)

/-- The argument record of the `sendEmail` delivery capability
(`toAddr` models its `to` field, a reserved word in Lean). -/
structure EmailPayload where
  toAddr : String
  subject : String
  text : String
  html : String
deriving DecidableEq

/-- The payload built for one customer inside the batch map. -/
def emailPayload (campaign : Campaign) (customer : Customer) : EmailPayload :=
  { toAddr := customer.email
    subject := (replaceCI firstNameTok (firstNameOr customer.name).toList
      campaign.subject.toList).asString
    text := (plainTextChars campaign customer).asString
    html := (htmlBodyChars campaign customer).asString }

/-- What the delivery capability does with one payload: return success,
return a failure record, throw inside the task (caught by the inner
`catch`), or reject the promise (surfacing in `allSettled` as `rejected`). -/
inductive DeliverBehavior where
  | succeed (messageId : String)
  | failResult (error : String)
  | throwErr (message : String)
  | rejected (reason : Option String)
deriving DecidableEq

/-- One element of the `Promise.allSettled` result array. -/
inductive SettledResult where
  | fulfilled (success : Bool) (email : String) (info : String)
  | rejected (reason : Option String)
deriving DecidableEq

/-- The per-customer async task of the batch map, as settled by
`Promise.allSettled`. -/
def settleCustomer (campaign : Campaign) (deliver : EmailPayload → DeliverBehavior)
    (customer : Customer) : SettledResult :=
  match deliver (emailPayload campaign customer) with
  | .succeed mid => .fulfilled true customer.email mid
  | .failResult err => .fulfilled false customer.email err
  | .throwErr msg => .fulfilled false customer.email msg
  | .rejected r => .rejected r

/-- One entry of the `failedEmails` array. -/
structure FailedEmail where
  email : String
  error : String
deriving DecidableEq

/-- The `results.forEach` accumulation of
`(successCount, failureCount, failedEmails)`. -/
def tallyResult (acc : Nat × Nat × List FailedEmail) (r : SettledResult) :
    Nat × Nat × List FailedEmail :=
  match r with
  | .fulfilled true _ _ => (acc.1 + 1, acc.2.1, acc.2.2)
  | .fulfilled false email err => (acc.1, acc.2.1 + 1, acc.2.2 ++ [⟨email, err⟩])
  | .rejected reason =>
    (acc.1, acc.2.1 + 1, acc.2.2 ++ [⟨"unknown", reason.getD "Unknown error"⟩])

/-- `const BATCH_SIZE = 50`. -/
def BATCH_SIZE : Nat := 50

/-- `const DELAY_BETWEEN_BATCHES = 1000` (ms). -/
def DELAY_BETWEEN_BATCHES : Nat := 1000

/-- The wave structure of the `for (let i = 0; i < customers.length;
i += BATCH_SIZE)` loop: each element is one wave (`customers.slice(i, i +
BATCH_SIZE)`) paired with whether the loop suspends for the inter-wave delay
after it (`i + BATCH_SIZE < customers.length`). -/
def dispatchSchedule (bs : Nat) : List α → List (List α × Bool)
  | [] => []
  | x :: xs =>
    ((x :: xs).take bs, decide (bs < (x :: xs).length)) ::
      dispatchSchedule bs (xs.drop (bs - 1))
termination_by l => l.length
decreasing_by
  simp only [List.length_drop, List.length_cons]
  omega

/-- The record returned by `sendCampaignEmails`. -/
structure DispatchResult where
  total : Nat
  successCount : Nat
  failureCount : Nat
  failedEmails : List FailedEmail
deriving DecidableEq

/-- `sendCampaignEmails(campaign, customers)`: settle every wave in order,
tallying counts and failure records across waves. -/
def sendCampaignEmails (campaign : Campaign) (customers : List Customer)
    (deliver : EmailPayload → DeliverBehavior) : DispatchResult :=
  let batches := (dispatchSchedule BATCH_SIZE customers).map Prod.fst
  let acc := batches.foldl
    (fun acc batch => (batch.map (settleCustomer campaign deliver)).foldl tallyResult acc)
    (0, 0, [])
  { total := customers.length, successCount := acc.1, failureCount := acc.2.1,
    failedEmails := acc.2.2 }

lemma dispatchSchedule_nil (bs : Nat) : dispatchSchedule bs ([] : List α) = [] := by
  rw [dispatchSchedule.eq_def]

lemma dispatchSchedule_eq_cons (bs : Nat) (hbs : 1 ≤ bs) (l : List α) (hl : l ≠ []) :
    dispatchSchedule bs l =
      (l.take bs, decide (bs < l.length)) :: dispatchSchedule bs (l.drop bs) := by
  cases l with
  | nil => exact absurd rfl hl
  | cons x xs =>
    have hstep : dispatchSchedule bs (x :: xs) =
        ((x :: xs).take bs, decide (bs < (x :: xs).length)) ::
          dispatchSchedule bs (xs.drop (bs - 1)) := by
      rw [dispatchSchedule.eq_def]
    have hdrop : xs.drop (bs - 1) = (x :: xs).drop bs := by
      cases bs with
      | zero => omega
      | succ k => simp
    rw [hstep, hdrop]

lemma dispatchSchedule_ne_nil (bs : Nat) (hbs : 1 ≤ bs) (l : List α) (hl : l ≠ []) :
    dispatchSchedule bs l ≠ [] := by
  rw [dispatchSchedule_eq_cons bs hbs l hl]
  simp

lemma dispatchSchedule_join (bs : Nat) (hbs : 1 ≤ bs) :
    ∀ (n : Nat) (l : List α), l.length ≤ n →
      ((dispatchSchedule bs l).map Prod.fst).flatten = l := by
  intro n
  induction n with
  | zero =>
    intro l hl
    rw [List.length_eq_zero.mp (Nat.le_zero.mp hl)]
    simp [dispatchSchedule_nil]
  | succ k ih =>
    intro l hl
    cases l with
    | nil => simp [dispatchSchedule_nil]
    | cons x xs =>
      rw [dispatchSchedule_eq_cons bs hbs _ (by simp)]
      simp only [List.map_cons, List.flatten_cons]
      have hl' : xs.length + 1 ≤ k + 1 := by simpa using hl
      rw [ih ((x :: xs).drop bs)
        (by simp only [List.length_drop, List.length_cons]; omega)]
      exact List.take_append_drop bs (x :: xs)

lemma dispatchSchedule_wave_le (bs : Nat) (hbs : 1 ≤ bs) :
    ∀ (n : Nat) (l : List α), l.length ≤ n →
      ∀ p ∈ dispatchSchedule bs l, p.1.length ≤ bs := by
  intro n
  induction n with
  | zero =>
    intro l hl p hp
    rw [List.length_eq_zero.mp (Nat.le_zero.mp hl), dispatchSchedule_nil] at hp
    exact absurd hp (List.not_mem_nil p)
  | succ k ih =>
    intro l hl p hp
    cases l with
    | nil =>
      rw [dispatchSchedule_nil] at hp
      exact absurd hp (List.not_mem_nil p)
    | cons x xs =>
      rw [dispatchSchedule_eq_cons bs hbs _ (by simp)] at hp
      rcases List.mem_cons.mp hp with hp | hp
      · subst hp
        simp [List.length_take]
      · have hl' : xs.length + 1 ≤ k + 1 := by simpa using hl
        exact ih ((x :: xs).drop bs)
          (by simp only [List.length_drop, List.length_cons]; omega) p hp

lemma dispatchSchedule_flags (bs : Nat) (hbs : 1 ≤ bs) :
    ∀ (n : Nat) (l : List α), l.length ≤ n → l ≠ [] →
      (dispatchSchedule bs l).map Prod.snd =
        List.replicate ((dispatchSchedule bs l).length - 1) true ++ [false] := by
  intro n
  induction n with
  | zero =>
    intro l hl hne
    exact absurd (List.length_eq_zero.mp (Nat.le_zero.mp hl)) hne
  | succ k ih =>
    intro l hl hne
    cases l with
    | nil => exact absurd rfl hne
    | cons x xs =>
      rw [dispatchSchedule_eq_cons bs hbs _ (by simp)]
      have hl' : xs.length + 1 ≤ k + 1 := by simpa using hl
      by_cases hlt : bs < (x :: xs).length
      · have hlt' : bs < xs.length + 1 := by simpa using hlt
        have hrlen : ((x :: xs).drop bs).length = xs.length + 1 - bs := by
          simp [List.length_drop]
        have hrne : (x :: xs).drop bs ≠ [] := by
          intro hcon
          rw [hcon] at hrlen
          simp at hrlen
          omega
        have ihr := ih ((x :: xs).drop bs)
          (by simp only [List.length_drop, List.length_cons]; omega) hrne
        obtain ⟨m, hm⟩ : ∃ m, (dispatchSchedule bs ((x :: xs).drop bs)).length = m + 1 := by
          rcases hsch : dispatchSchedule bs ((x :: xs).drop bs) with _ | ⟨a, t⟩
          · exact absurd hsch (dispatchSchedule_ne_nil bs hbs _ hrne)
          · exact ⟨t.length, by simp⟩
        simp only [List.map_cons, ihr, hm, List.length_cons, Nat.add_sub_cancel]
        simp [hlt', List.replicate_succ]
      · have hlt' : ¬ bs < xs.length + 1 := by simpa using hlt
        have hrest : (x :: xs).drop bs = [] := by
          apply List.drop_eq_nil_of_le
          simp only [List.length_cons]
          omega
        rw [hrest, dispatchSchedule_nil]
        simp [hlt']

/-- Claim C4: the dispatcher partitions the audience into consecutive waves
of at most `BATCH_SIZE = 50` (their concatenation in order is the audience),
the inter-wave delay fires after every wave except the last, and an audience
of exactly 120 gives waves of sizes 50, 50, 20 with exactly 2 delays. -/
theorem claim4_dispatcher_waves (cs : List Customer) :
    ((dispatchSchedule BATCH_SIZE cs).map Prod.fst).flatten = cs ∧
    (∀ p ∈ dispatchSchedule BATCH_SIZE cs, p.1.length ≤ BATCH_SIZE) ∧
    (cs ≠ [] → (dispatchSchedule BATCH_SIZE cs).map Prod.snd =
      List.replicate ((dispatchSchedule BATCH_SIZE cs).length - 1) true ++ [false]) ∧
    (cs.length = 120 →
      (dispatchSchedule BATCH_SIZE cs).map (fun p => p.1.length) = [50, 50, 20] ∧
      ((dispatchSchedule BATCH_SIZE cs).map Prod.snd).count true = 2) := by
  have hbs : 1 ≤ BATCH_SIZE := by norm_num [BATCH_SIZE]
  refine ⟨dispatchSchedule_join BATCH_SIZE hbs cs.length cs le_rfl,
    dispatchSchedule_wave_le BATCH_SIZE hbs cs.length cs le_rfl,
    dispatchSchedule_flags BATCH_SIZE hbs cs.length cs le_rfl, ?_⟩
  intro h120
  have hne1 : cs ≠ [] := by
    intro h
    rw [h] at h120
    simp at h120
  have e1 : dispatchSchedule BATCH_SIZE cs =
      (cs.take 50, true) :: dispatchSchedule 50 (cs.drop 50) := by
    rw [show BATCH_SIZE = 50 from rfl, dispatchSchedule_eq_cons 50 (by norm_num) cs hne1,
      h120]
    norm_num
  have hlen2 : (cs.drop 50).length = 70 := by simp [h120]
  have hne2 : cs.drop 50 ≠ [] := by
    intro h
    rw [h] at hlen2
    simp at hlen2
  have e2 : dispatchSchedule 50 (cs.drop 50) =
      ((cs.drop 50).take 50, true) :: dispatchSchedule 50 ((cs.drop 50).drop 50) := by
    rw [dispatchSchedule_eq_cons 50 (by norm_num) _ hne2, hlen2]
    norm_num
  have hlen3 : ((cs.drop 50).drop 50).length = 20 := by simp [h120]
  have hne3 : (cs.drop 50).drop 50 ≠ [] := by
    intro h
    rw [h] at hlen3
    simp at hlen3
  have hrest : ((cs.drop 50).drop 50).drop 50 = [] := by
    apply List.drop_eq_nil_of_le
    omega
  have e3 : dispatchSchedule 50 ((cs.drop 50).drop 50) =
      [(((cs.drop 50).drop 50).take 50, false)] := by
    rw [dispatchSchedule_eq_cons 50 (by norm_num) _ hne3, hlen3, hrest, dispatchSchedule_nil]
    rfl
  rw [e1, e2, e3]
  constructor
  · simp [List.length_take, h120, hlen2, hlen3]
  · simp

lemma tally_sum (rs : List SettledResult) : ∀ acc : Nat × Nat × List FailedEmail,
    (rs.foldl tallyResult acc).1 + (rs.foldl tallyResult acc).2.1 =
      acc.1 + acc.2.1 + rs.length := by
  induction rs with
  | nil => intro acc; simp
  | cons r t ih =>
    intro acc
    rw [List.foldl_cons, ih]
    rcases r with ⟨b, e, i⟩ | reason
    · cases b <;> simp [tallyResult] <;> omega
    · simp [tallyResult]
      omega

lemma batches_sum (campaign : Campaign) (deliver : EmailPayload → DeliverBehavior)
    (batches : List (List Customer)) : ∀ acc : Nat × Nat × List FailedEmail,
    ((batches.foldl
      (fun acc batch => (batch.map (settleCustomer campaign deliver)).foldl tallyResult acc)
      acc).1 +
      (batches.foldl
        (fun acc batch => (batch.map (settleCustomer campaign deliver)).foldl tallyResult acc)
        acc).2.1) =
      acc.1 + acc.2.1 + (batches.map List.length).sum := by
  induction batches with
  | nil => intro acc; simp
  | cons b t ih =>
    intro acc
    rw [List.foldl_cons, ih, tally_sum]
    simp
    omega

/-- Claim C3: for every audience and every behaviour of the individual
deliveries (success, returned failure record, thrown error, or promise
rejection), the dispatcher's record satisfies
`successCount + failureCount = total` and `total` is the audience length. -/
theorem claim3_dispatcher_accounting (campaign : Campaign) (customers : List Customer)
    (deliver : EmailPayload → DeliverBehavior) :
    (sendCampaignEmails campaign customers deliver).successCount +
        (sendCampaignEmails campaign customers deliver).failureCount =
      (sendCampaignEmails campaign customers deliver).total ∧
    (sendCampaignEmails campaign customers deliver).total = customers.length := by
  refine ⟨?_, rfl⟩
  show ((((dispatchSchedule BATCH_SIZE customers).map Prod.fst).foldl
      (fun acc batch => (batch.map (settleCustomer campaign deliver)).foldl tallyResult acc)
      (0, 0, [])).1 +
    (((dispatchSchedule BATCH_SIZE customers).map Prod.fst).foldl
      (fun acc batch => (batch.map (settleCustomer campaign deliver)).foldl tallyResult acc)
      (0, 0, [])).2.1) = customers.length
  rw [batches_sum]
  have hjoin := dispatchSchedule_join BATCH_SIZE (by norm_num [BATCH_SIZE])
    customers.length customers le_rfl
  have hlen := congrArg List.length hjoin
  rw [List.length_flatten] at hlen
  simpa using hlen

/-- Responses of the send endpoint (HTTP 404 / the two 400 rejections / 200). -/
inductive SendResponse where
  | notFound
  | alreadySent
  | noAudience
  | ok (successCount failureCount : Nat) (failedEmails : List FailedEmail)
deriving DecidableEq

/-- `sendCampaign` over a single-campaign store: reject if already sent,
resolve the audience, reject if empty, otherwise dispatch, then overwrite
status, counters and the communication log and persist. -/
def sendCampaign (store : Option Campaign) (customers : List Customer)
    (spend : Customer → ℚ) (deliver : EmailPayload → DeliverBehavior) (now : Nat) :
    SendResponse × Option Campaign :=
  match store with
  | none => (.notFound, none)
  | some campaign =>
    if campaign.status = CampaignStatus.sent then (.alreadySent, some campaign)
    else
      let targetAudience := calculateTargetAudience campaign.segmentRules customers spend
      if targetAudience.length = 0 then (.noAudience, some campaign)
      else
        let emailResults := sendCampaignEmails campaign targetAudience deliver
        (.ok emailResults.successCount emailResults.failureCount emailResults.failedEmails,
          some { campaign with
            status := CampaignStatus.sent
            sentAt := some now
            targetAudience := targetAudience.length
            delivered := emailResults.successCount
            failed := emailResults.failureCount
            communicationLog := targetAudience.map (fun customer =>
              { customerId := customer.id
                status := if emailResults.failedEmails.any
                    (fun failed => failed.email == customer.email) then LogStatus.failed
                  else LogStatus.delivered
                deliveredAt := if emailResults.failedEmails.any
                    (fun failed => failed.email == customer.email) then none
                  else some now }) })

/-- The zod-validated request body of create/update. -/
structure CampaignInput where
  name : String
  description : Option String
  segmentRules : List SegmentRule
  message : String
  scheduledFor : Option Nat
deriving DecidableEq

/-- Responses of the update endpoint. -/
inductive UpdateResponse where
  | notFound | conflictSent | ok
deriving DecidableEq

/-- `updateCampaign`: reject on a sent campaign, otherwise overwrite the
validated fields, re-derive the status and recompute the audience count. -/
def updateCampaign (store : Option Campaign) (data : CampaignInput)
    (customers : List Customer) (spend : Customer → ℚ) :
    UpdateResponse × Option Campaign :=
  match store with
  | none => (.notFound, none)
  | some existing =>
    if existing.status = CampaignStatus.sent then (.conflictSent, some existing)
    else
      let updated : Campaign :=
        { existing with
          name := data.name
          description := data.description.getD existing.description
          segmentRules := data.segmentRules
          message := data.message
          scheduledFor := match data.scheduledFor with
            | some d => some d
            | none => existing.scheduledFor
          status := if data.scheduledFor.isSome then CampaignStatus.scheduled
            else CampaignStatus.draft }
      (.ok, some { updated with
        targetAudience :=
          (calculateTargetAudience updated.segmentRules customers spend).length })

/-- Responses of the delete endpoint. -/
inductive DeleteResponse where
  | notFound | conflictSent | ok
deriving DecidableEq

/-- `deleteCampaign`: reject on a sent campaign, otherwise remove it. -/
def deleteCampaign (store : Option Campaign) : DeleteResponse × Option Campaign :=
  match store with
  | none => (.notFound, none)
  | some campaign =>
    if campaign.status = CampaignStatus.sent then (.conflictSent, some campaign)
    else (.ok, none)

/-- Claim C6: on a `sent` campaign, send, update and delete all reject with
the conflict response and leave the store unchanged; on a not-yet-sent
campaign whose resolved audience is empty, send rejects with the
no-target-audience response and mutates nothing. -/
theorem claim6_sent_immutable :
    (∀ (campaign : Campaign) (customers : List Customer) (spend : Customer → ℚ)
        (deliver : EmailPayload → DeliverBehavior) (now : Nat) (data : CampaignInput),
      campaign.status = CampaignStatus.sent →
      sendCampaign (some campaign) customers spend deliver now =
          (SendResponse.alreadySent, some campaign) ∧
        updateCampaign (some campaign) data customers spend =
          (UpdateResponse.conflictSent, some campaign) ∧
        deleteCampaign (some campaign) = (DeleteResponse.conflictSent, some campaign))
    ∧ (∀ (campaign : Campaign) (customers : List Customer) (spend : Customer → ℚ)
        (deliver : EmailPayload → DeliverBehavior) (now : Nat),
      campaign.status ≠ CampaignStatus.sent →
      calculateTargetAudience campaign.segmentRules customers spend = [] →
      sendCampaign (some campaign) customers spend deliver now =
        (SendResponse.noAudience, some campaign)) := by
  constructor
  · intro campaign customers spend deliver now data hsent
    refine ⟨?_, ?_, ?_⟩ <;> simp [sendCampaign, updateCampaign, deleteCampaign, hsent]
  · intro campaign customers spend deliver now hsent hempty
    simp [sendCampaign, hsent, hempty]

/-- A concrete already-sent campaign. -/
def sentCampaign : Campaign :=
  ⟨1, "camp", "", "Subj", "Body body", [⟨.name, .equals, .vstr "a", none⟩],
    .sent, none, none, 0, 0, 0, []⟩

/-- A concrete draft campaign (used with an empty customer collection). -/
def draftCampaignNoAud : Campaign := { sentCampaign with id := 2, status := .draft }

/-- A concrete validated update body. -/
def c6Input : CampaignInput :=
  ⟨"newname", none, [⟨.name, .equals, .vstr "a", none⟩], "hello there!", none⟩

/-- Witness for `claim6_sent_immutable` at concrete campaigns. -/
theorem claim6_witness :
    sendCampaign (some sentCampaign) [] (fun _ => 0) (fun _ => .succeed "m") 5 =
        (SendResponse.alreadySent, some sentCampaign) ∧
      updateCampaign (some sentCampaign) c6Input [] (fun _ => 0) =
        (UpdateResponse.conflictSent, some sentCampaign) ∧
      deleteCampaign (some sentCampaign) = (DeleteResponse.conflictSent, some sentCampaign) ∧
      sendCampaign (some draftCampaignNoAud) [] (fun _ => 0) (fun _ => .succeed "m") 5 =
        (SendResponse.noAudience, some draftCampaignNoAud) := by
  have h1 := claim6_sent_immutable.1 sentCampaign [] (fun _ => 0) (fun _ => .succeed "m") 5
    c6Input rfl
  have h2 := claim6_sent_immutable.2 draftCampaignNoAud [] (fun _ => 0)
    (fun _ => .succeed "m") 5 (by decide) rfl
  exact ⟨h1.1, h1.2.1, h1.2.2, h2⟩

/-- Claim C2: a successful send of a not-yet-sent campaign with non-empty
resolved audience returns the dispatcher counts, marks the campaign `sent`,
stores `delivered`/`failed` from the dispatcher, and replaces the
communication log with one entry per audience member, failed (with null
`deliveredAt`) exactly when the member's email appears in `failedEmails`;
for an audience `[a, b, c]` where only `b`'s delivery fails, the dispatcher
reports 2 successes and 1 failure and the log has 3 entries. -/
theorem claim2_sendCampaign_success
    (campaign : Campaign) (customers aud : List Customer) (spend : Customer → ℚ)
    (deliver : EmailPayload → DeliverBehavior) (now : Nat)
    (hsent : campaign.status ≠ CampaignStatus.sent)
    (haud : calculateTargetAudience campaign.segmentRules customers spend = aud)
    (hne : aud ≠ []) :
    (sendCampaign (some campaign) customers spend deliver now =
      (SendResponse.ok (sendCampaignEmails campaign aud deliver).successCount
          (sendCampaignEmails campaign aud deliver).failureCount
          (sendCampaignEmails campaign aud deliver).failedEmails,
        some { campaign with
          status := CampaignStatus.sent
          sentAt := some now
          targetAudience := aud.length
          delivered := (sendCampaignEmails campaign aud deliver).successCount
          failed := (sendCampaignEmails campaign aud deliver).failureCount
          communicationLog := aud.map (fun customer =>
            { customerId := customer.id
              status := if ∃ fe ∈ (sendCampaignEmails campaign aud deliver).failedEmails,
                  fe.email = customer.email then LogStatus.failed else LogStatus.delivered
              deliveredAt := if ∃ fe ∈ (sendCampaignEmails campaign aud deliver).failedEmails,
                  fe.email = customer.email then none else some now }) }))
    ∧ (∀ a b c, aud = [a, b, c] →
        (∃ m, deliver (emailPayload campaign a) = DeliverBehavior.succeed m) →
        (∃ e, deliver (emailPayload campaign b) = DeliverBehavior.failResult e) →
        (∃ m, deliver (emailPayload campaign c) = DeliverBehavior.succeed m) →
        (sendCampaignEmails campaign aud deliver).successCount = 2 ∧
          (sendCampaignEmails campaign aud deliver).failureCount = 1 ∧
          aud.length = 3) := by
  constructor
  · have hlen : ¬ aud.length = 0 := fun hc => hne (List.length_eq_zero.mp hc)
    have hmap : ∀ fes : List FailedEmail,
        aud.map (fun customer =>
          (⟨customer.id,
            if fes.any (fun failed => failed.email == customer.email) then LogStatus.failed
              else LogStatus.delivered,
            if fes.any (fun failed => failed.email == customer.email) then none
              else some now⟩ : LogEntry)) =
        aud.map (fun customer =>
          (⟨customer.id,
            if ∃ fe ∈ fes, fe.email = customer.email then LogStatus.failed
              else LogStatus.delivered,
            if ∃ fe ∈ fes, fe.email = customer.email then none
              else some now⟩ : LogEntry)) := by
      intro fes
      refine List.map_congr_left (fun customer _ => ?_)
      have hiff : (fes.any (fun failed => failed.email == customer.email) = true) ↔
          ∃ fe ∈ fes, fe.email = customer.email := by
        simp [List.any_eq_true]
      simp only [hiff]
    simp only [sendCampaign, haud, if_neg hsent, if_neg hlen]
    rw [hmap]
  · rintro a b c habc ⟨m1, ha⟩ ⟨e1, hb⟩ ⟨m3, hc⟩
    subst habc
    have hsched : dispatchSchedule BATCH_SIZE [a, b, c] = [([a, b, c], false)] := by
      rw [show BATCH_SIZE = 50 from rfl, dispatchSchedule_eq_cons 50 (by norm_num) _ (by simp),
        List.take_of_length_le (by simp), List.drop_eq_nil_of_le (by simp),
        dispatchSchedule_nil]
      simp
    have hsa : settleCustomer campaign deliver a = .fulfilled true a.email m1 := by
      simp [settleCustomer, ha]
    have hsb : settleCustomer campaign deliver b = .fulfilled false b.email e1 := by
      simp [settleCustomer, hb]
    have hsc : settleCustomer campaign deliver c = .fulfilled true c.email m3 := by
      simp [settleCustomer, hc]
    refine ⟨?_, ?_, rfl⟩ <;>
      simp [sendCampaignEmails, hsched, hsa, hsb, hsc, tallyResult]

/-- The concrete campaign of the C2 scenario. -/
def c2Campaign : Campaign :=
  ⟨3, "camp", "", "Hello", "Hi {customername}, buy!",
    [⟨.location, .equals, .vstr "X", none⟩], .draft, none, none, 0, 0, 0, []⟩

/-- First recipient of the C2 scenario (delivery succeeds). -/
def c2a : Customer := ⟨11, some "Ann A", "a@x", "p", "X", []⟩

/-- Second recipient of the C2 scenario (delivery fails). -/
def c2b : Customer := ⟨12, some "Bob B", "b@x", "p", "X", []⟩

/-- Third recipient of the C2 scenario (delivery succeeds). -/
def c2c : Customer := ⟨13, some "Cyd C", "c@x", "p", "X", []⟩

/-- Delivery capability that bounces exactly the second recipient. -/
def c2deliver : EmailPayload → DeliverBehavior := fun p =>
  if p.toAddr = "b@x" then .failResult "bounce" else .succeed "mid"

/-- Witness for `claim2_sendCampaign_success` at the concrete scenario. -/
theorem claim2_witness :
    (sendCampaign (some c2Campaign) [c2a, c2b, c2c] (fun _ => 0) c2deliver 7).1 =
        SendResponse.ok (sendCampaignEmails c2Campaign [c2a, c2b, c2c] c2deliver).successCount
          (sendCampaignEmails c2Campaign [c2a, c2b, c2c] c2deliver).failureCount
          (sendCampaignEmails c2Campaign [c2a, c2b, c2c] c2deliver).failedEmails ∧
      (sendCampaignEmails c2Campaign [c2a, c2b, c2c] c2deliver).successCount = 2 ∧
      (sendCampaignEmails c2Campaign [c2a, c2b, c2c] c2deliver).failureCount = 1 ∧
      ([c2a, c2b, c2c] : List Customer).length = 3 := by
  have h := claim2_sendCampaign_success c2Campaign [c2a, c2b, c2c] [c2a, c2b, c2c]
    (fun _ => 0) c2deliver 7 (by decide) (by decide) (by decide)
  have hs := h.2 c2a c2b c2c rfl ⟨"mid", rfl⟩ ⟨"bounce", rfl⟩ ⟨"mid", rfl⟩
  exact ⟨by rw [h.1], hs.1, hs.2.1, hs.2.2⟩

/-- A customer used to build the 120-element audience of the C4 witness. -/
def c4Customer : Customer := ⟨21, some "w", "w@x", "p", "l", []⟩

/-- Witness for `claim4_dispatcher_waves` on a concrete audience of 120. -/
theorem claim4_witness :
    (dispatchSchedule BATCH_SIZE (List.replicate 120 c4Customer)).map
        (fun p => p.1.length) = [50, 50, 20] ∧
      ((dispatchSchedule BATCH_SIZE (List.replicate 120 c4Customer)).map Prod.snd).count
        true = 2 ∧
      (dispatchSchedule BATCH_SIZE (List.replicate 120 c4Customer)).map Prod.snd =
        List.replicate
          ((dispatchSchedule BATCH_SIZE (List.replicate 120 c4Customer)).length - 1)
          true ++ [false] := by
  have h := claim4_dispatcher_waves (List.replicate 120 c4Customer)
  have h120 : (List.replicate 120 c4Customer).length = 120 := by simp
  have hne : List.replicate 120 c4Customer ≠ [] := by simp
  exact ⟨(h.2.2.2 h120).1, (h.2.2.2 h120).2, h.2.2.1 hne⟩

/-- No match of the (case-folded, `'{'`-headed) pattern starts inside `pre`
when `pre` is followed by `tail`. -/
def cleanBefore (pat pre tail : List Char) : Prop :=
  ∀ s : List Char, s ≠ [] → s <:+ pre →
    ¬ ((s ++ tail).take pat.length).map Char.toLower = pat

lemma replaceCI_cons (pat repl : List Char) (c : Char) (rest : List Char) :
    replaceCI pat repl (c :: rest) =
      if pat ≠ [] ∧ ((c :: rest).take pat.length).map Char.toLower = pat then
        repl ++ replaceCI pat repl (rest.drop (pat.length - 1))
      else c :: replaceCI pat repl rest := by
  rw [replaceCI.eq_def]

lemma replaceCI_occurrence (repl pre inst post : List Char)
    (hpre : cleanBefore customerNameTok pre (inst ++ post))
    (hinst : inst.map Char.toLower = customerNameTok) :
    replaceCI customerNameTok repl (pre ++ inst ++ post) =
      pre ++ repl ++ replaceCI customerNameTok repl post := by
  have hlen : inst.length = customerNameTok.length := by
    rw [← hinst, List.length_map]
  induction pre with
  | nil =>
    simp only [List.nil_append]
    cases inst with
    | nil => exact absurd hlen (by decide)
    | cons i it =>
      have hpos : customerNameTok ≠ [] ∧
          (((i :: it) ++ post).take customerNameTok.length).map Char.toLower =
            customerNameTok := by
        refine ⟨by decide, ?_⟩
        rw [← hlen, List.take_left, hinst]
      have hdrop : (it ++ post).drop (customerNameTok.length - 1) = post := by
        have hit : customerNameTok.length - 1 = it.length := by
          simp only [List.length_cons] at hlen
          omega
        rw [hit, List.drop_left]
      simp only [List.cons_append] at hpos ⊢
      rw [replaceCI_cons, if_pos hpos, hdrop]
  | cons p pre' ih =>
    have htest := hpre (p :: pre') (by simp) (List.suffix_refl _)
    have ih' := ih (fun s hs hsuf => hpre s hs (hsuf.trans (List.suffix_cons p pre')))
    simp only [List.cons_append, List.append_assoc] at htest ih' ⊢
    rw [replaceCI_cons, if_neg (fun hcon => htest hcon.2), ih']

lemma newlineToBr_append (a b : List Char) :
    newlineToBr (a ++ b) = newlineToBr a ++ newlineToBr b := by
  induction a with
  | nil => simp [newlineToBr]
  | cons c rest ih => simp [newlineToBr, ih]

lemma newlineToBr_no_newline (l : List Char) : '\n' ∉ newlineToBr l := by
  induction l with
  | nil => simp [newlineToBr]
  | cons c rest ih =>
    simp only [newlineToBr, List.mem_append]
    rintro (h | h)
    · by_cases hc : c = '\n'
      · rw [if_pos hc] at h
        revert h
        decide
      · rw [if_neg hc] at h
        simp only [List.mem_singleton] at h
        exact hc h.symm
    · exact ih h

lemma dropTag_suffix : ∀ l l' : List Char, dropTag l = some l' → l' <:+ l := by
  intro l
  induction l with
  | nil => intro l' h; simp [dropTag] at h
  | cons c rest ih =>
    intro l' h
    rw [dropTag] at h
    by_cases hc : c = '>'
    · simp only [hc, if_true, Option.some.injEq] at h
      subst h
      exact (List.suffix_cons _ _)
    · simp only [hc, if_false] at h
      exact (ih l' h).trans (List.suffix_cons _ _)

lemma stripTags_subset : ∀ (n : Nat) (l : List Char), l.length ≤ n →
    ∀ c ∈ stripTags l, c ∈ l := by
  intro n
  induction n with
  | zero =>
    intro l hl c hc
    rw [List.length_eq_zero.mp (Nat.le_zero.mp hl)] at hc ⊢
    rw [show stripTags [] = [] from by rw [stripTags.eq_def]] at hc
    exact hc
  | succ k ih =>
    intro l hl c hc
    cases l with
    | nil =>
      rw [show stripTags [] = [] from by rw [stripTags.eq_def]] at hc
      exact hc
    | cons x rest =>
      have hrest : rest.length ≤ k := by simpa using hl
      rw [stripTags.eq_def] at hc
      by_cases hx : x = '<'
      · simp only [hx, if_true] at hc
        rcases hdt : dropTag rest with _ | rest'
        · rw [hdt] at hc
          simp only [List.mem_cons] at hc
          rcases hc with hc | hc
          · simp [hx, hc]
          · exact List.mem_cons_of_mem _ (ih rest hrest c hc)
        · rw [hdt] at hc
          have hsub := (dropTag_suffix rest rest' hdt).sublist.subset
          have hlen' : rest'.length ≤ k :=
            le_trans (dropTag_suffix rest rest' hdt).sublist.length_le hrest
          exact List.mem_cons_of_mem _ (hsub (ih rest' hlen' c hc))
      · simp only [hx, if_false, List.mem_cons] at hc
        rcases hc with hc | hc
        · simp [hc]
        · exact List.mem_cons_of_mem _ (ih rest hrest c hc)

/-- Claim C7: `{customername}` is replaced case-insensitively by the first
space-delimited token of the customer name ("Ada Lovelace" gives "Ada"),
with the literal fallback for an absent or empty name; after substitution
every newline of the body becomes `<br>` in the HTML output (which embeds
the converted body), and the plain-text output is the personalized body
with all markup tags stripped and therefore contains no newline. -/
theorem claim7_personalizer :
    (firstNameOr none = "Valued Customer" ∧ firstNameOr (some "") = "Valued Customer" ∧
      firstNameOr (some "Ada Lovelace") = "Ada")
    ∧ (∀ repl pre inst post : List Char, cleanBefore customerNameTok pre (inst ++ post) →
        inst.map Char.toLower = customerNameTok →
        replaceCI customerNameTok repl (pre ++ inst ++ post) =
          pre ++ repl ++ replaceCI customerNameTok repl post)
    ∧ (∀ a b : List Char, newlineToBr (a ++ '\n' :: b) =
        newlineToBr a ++ "<br>".toList ++ newlineToBr b)
    ∧ (∀ l : List Char, '\n' ∉ newlineToBr l)
    ∧ (∀ (campaign : Campaign) (customer : Customer),
        plainTextChars campaign customer =
          stripTags (personalizeBody campaign.message customer.name) ∧
        '\n' ∉ plainTextChars campaign customer)
    ∧ (∀ (campaign : Campaign) (customer : Customer),
        personalizeBody campaign.message customer.name <:+: htmlBodyChars campaign customer) := by
  refine ⟨⟨rfl, rfl, by decide⟩,
    fun repl pre inst post h1 h2 => replaceCI_occurrence repl pre inst post h1 h2,
    ?_, newlineToBr_no_newline, ?_, ?_⟩
  · intro a b
    rw [show (a ++ '\n' :: b) = a ++ ['\n'] ++ b from by simp, newlineToBr_append,
      newlineToBr_append]
    simp [newlineToBr]
  · intro campaign customer
    refine ⟨rfl, ?_⟩
    intro hmem
    have h2 : '\n' ∈ personalizeBody campaign.message customer.name :=
      stripTags_subset (personalizeBody campaign.message customer.name).length _ le_rfl _ hmem
    exact newlineToBr_no_newline _ h2
  · intro campaign customer
    exact ⟨htmlPreTitle ++ campaign.subject.toList ++ htmlMid, htmlEnd,
      by simp [htmlBodyChars, List.append_assoc]⟩

/-- Witness for the replacement part of `claim7_personalizer`. -/
theorem claim7_witness :
    cleanBefore customerNameTok [] ("{CustomerName}".toList ++ "!".toList) ∧
      "{CustomerName}".toList.map Char.toLower = customerNameTok ∧
      replaceCI customerNameTok "Ada".toList
          (([] : List Char) ++ "{CustomerName}".toList ++ "!".toList) =
        ([] : List Char) ++ "Ada".toList ++ replaceCI customerNameTok "Ada".toList "!".toList := by
  have hclean : cleanBefore customerNameTok [] ("{CustomerName}".toList ++ "!".toList) := by
    intro s hs hsuf
    exact absurd (List.suffix_nil.mp hsuf) hs
  exact ⟨hclean, by decide,
    claim7_personalizer.2.1 "Ada".toList [] "{CustomerName}".toList "!".toList hclean
      (by decide)⟩

lemma isSubstr_iff (pat l : List Char) : isSubstr pat l = true ↔ pat <:+: l := by
  induction l with
  | nil =>
    simp [isSubstr, List.isEmpty_iff]
  | cons c rest ih =>
    rw [isSubstr, List.infix_cons_iff]
    simp [List.isPrefixOf_iff_prefix, ih]

/-- Claim C9: on string fields, `equals` compiles to an exact case-sensitive
match against the raw value, and `contains`/`startsWith`/`endsWith` compile
to case-insensitive substring/prefix/suffix tests; on the `tags` field every
operator compiles to membership of the value in the customer's tag set. -/
theorem claim9_string_conditions :
    (∀ (c : Customer) (f : Field) (s v : String), strField c f = some s →
      ((evalLeaf c (buildStringCondition f .equals (.vstr v)) = true ↔ s = v) ∧
        (evalLeaf c (buildStringCondition f .contains (.vstr v)) = true ↔
          ciChars v <:+: ciChars s) ∧
        (evalLeaf c (buildStringCondition f .startsWith (.vstr v)) = true ↔
          ciChars v <+: ciChars s) ∧
        (evalLeaf c (buildStringCondition f .endsWith (.vstr v)) = true ↔
          ciChars v <:+ ciChars s)))
    ∧ (∀ (c : Customer) (op : Operator) (v : String) (lo : Option LogicOp),
        evalLeaf c (ruleCondition ⟨Field.tags, op, Value.vstr v, lo⟩) = true ↔
          v ∈ c.tags) := by
  constructor
  · intro c f s v hf
    refine ⟨?_, ?_, ?_, ?_⟩
    · simp [buildStringCondition, evalLeaf, hf]
    · simp [buildStringCondition, evalLeaf, hf, isSubstr_iff]
    · simp [buildStringCondition, evalLeaf, hf, List.isPrefixOf_iff_prefix]
    · simp [buildStringCondition, evalLeaf, hf, List.isSuffixOf_iff_suffix]
  · intro c op v lo
    simp [ruleCondition, evalLeaf]

/-- Customer for the `claim9_string_conditions` witness. -/
def c9Customer : Customer := ⟨31, some "Foo", "f@x", "p", "Lisbon", ["vip"]⟩

/-- Witness for `claim9_string_conditions` at a concrete customer. -/
theorem claim9_witness :
    (evalLeaf c9Customer (buildStringCondition .name .contains (.vstr "oO")) = true ↔
        ciChars "oO" <:+: ciChars "Foo") ∧
      (evalLeaf c9Customer (ruleCondition ⟨Field.tags, .greaterThan, .vstr "vip", none⟩) =
          true ↔ "vip" ∈ c9Customer.tags) :=
  ⟨(claim9_string_conditions.1 c9Customer .name "Foo" "oO" rfl).2.1,
    claim9_string_conditions.2 c9Customer .greaterThan "vip" none⟩

/-- A character matched by `.` in a JS regex (no line terminators). -/
def dotOk (c : Char) : Bool := !(c == '\n' || c == '\r')

/-- Try `(.+)\n\n([\s\S]*)$` at the current position: the maximal dot-run
must be non-empty and followed by two newlines (shrinking the greedy `(.+)`
can never help, because the character after a shorter run is still not a
newline). -/
def tryDotLine (l : List Char) : Option (List Char × List Char) :=
  let d := l.takeWhile dotOk
  if d.isEmpty then none
  else
    match l.dropWhile dotOk with
    | '\n' :: '\n' :: rest => some (d, rest)
    | _ => none

/-- Backtracking over the greedy `\s*`: try the longest whitespace prefix
first, then shift its last character back into the dot-line on failure. -/
def tryWs : List Char → List Char → Option (List Char × List Char)
  | [], rest => tryDotLine rest
  | c :: wsRev', rest =>
    match tryDotLine rest with
    | some r => some r
    | none => tryWs wsRev' (c :: rest)

/-- `messageContent.match(/^Subject:\s*(.+)\n\n([\s\S]*)$/)`, returning the
two capture groups. -/
def jsSubjectMatchL (cs : List Char) : Option (List Char × List Char) :=
  if cs.take 8 = "Subject:".toList then
    tryWs ((cs.drop 8).takeWhile jsWsChar).reverse ((cs.drop 8).dropWhile jsWsChar)
  else none

/-- JS `String.prototype.trim` on a character list (ASCII whitespace). -/
def jsTrimL (l : List Char) : List Char :=
  ((l.dropWhile jsWsChar).reverse.dropWhile jsWsChar).reverse

/-- `messageContent.substring(0, 50).trim() + '(...)'`. -/
def fallbackSubject (cs : List Char) : List Char :=
  jsTrimL (cs.take 50) ++ "(...)".toList

/-- Lines 107-119 of the controller: extracted `(subject, body)`. -/
def extractSubjectBody (messageContent : String) : String × String :=
  match jsSubjectMatchL messageContent.toList with
  | some (g1, g2) =>
    if g1 ≠ [] ∧ g2 ≠ [] then ((jsTrimL g1).asString, (jsTrimL g2).asString)
    else ((fallbackSubject messageContent.toList).asString, messageContent)
  | none => ((fallbackSubject messageContent.toList).asString, messageContent)

/-- `createCampaign` (the stored document): subject and body extracted from
the message, status derived from `scheduledFor`, audience count recomputed. -/
def createCampaign (input : CampaignInput) (customers : List Customer)
    (spend : Customer → ℚ) : Campaign :=
  { id := 0
    name := input.name
    description := input.description.getD ""
    subject := (extractSubjectBody input.message).1
    message := (extractSubjectBody input.message).2
    segmentRules := input.segmentRules
    status := if input.scheduledFor.isSome then CampaignStatus.scheduled
      else CampaignStatus.draft
    scheduledFor := input.scheduledFor
    sentAt := none
    targetAudience := (calculateTargetAudience input.segmentRules customers spend).length
    delivered := 0
    failed := 0
    communicationLog := [] }

lemma takeWhile_append_all (p : α → Bool) (l r : List α) (hl : ∀ x ∈ l, p x) :
    (l ++ r).takeWhile p = l ++ r.takeWhile p ∧ (l ++ r).dropWhile p = r.dropWhile p := by
  induction l with
  | nil => simp
  | cons a t ih =>
    have ha : p a := hl a (List.mem_cons_self _ _)
    have iht := ih (fun x hx => hl x (List.mem_cons_of_mem _ hx))
    simp [List.takeWhile_cons, List.dropWhile_cons, ha, iht.1, iht.2]

lemma takeWhile_append_stop (p : α → Bool) (l r : List α) (hl : ∀ x ∈ l, p x)
    (hr : ∀ c, r.head? = some c → ¬ p c) :
    (l ++ r).takeWhile p = l ∧ (l ++ r).dropWhile p = r := by
  have h := takeWhile_append_all p l r hl
  cases r with
  | nil => simpa using h
  | cons c rest =>
    have hc : ¬ p c := hr c rfl
    rw [h.1, h.2]
    simp [List.takeWhile_cons, List.dropWhile_cons, hc]

lemma tryDotLine_exact (l b : List Char) (hl : l ≠ []) (hdot : ∀ c ∈ l, dotOk c) :
    tryDotLine (l ++ '\n' :: '\n' :: b) = some (l, b) := by
  have h := takeWhile_append_stop dotOk l ('\n' :: '\n' :: b) hdot
    (fun c hc => by simp only [List.head?_cons, Option.some.injEq] at hc; subst hc; decide)
  unfold tryDotLine
  rw [h.1, h.2]
  simp [List.isEmpty_iff, hl]

lemma tryWs_of_success (wsRev rest : List Char) (r : List Char × List Char)
    (h : tryDotLine rest = some r) : tryWs wsRev rest = some r := by
  cases wsRev with
  | nil => simpa [tryWs] using h
  | cons c wsRev' => simp [tryWs, h]

/-- Completeness of the matcher on a decomposed message: whitespace `w`
after the colon, a non-empty dot-only line not beginning with whitespace,
a blank line, then the body. -/
lemma jsSubjectMatch_complete (w l b : List Char) (hw : ∀ c ∈ w, jsWsChar c)
    (hl : l ≠ []) (hdot : ∀ c ∈ l, dotOk c)
    (hhead : ∀ c, l.head? = some c → ¬ jsWsChar c) :
    jsSubjectMatchL ("Subject:".toList ++ w ++ l ++ '\n' :: '\n' :: b) = some (l, b) := by
  unfold jsSubjectMatchL
  have h8take : ("Subject:".toList ++ (w ++ (l ++ '\n' :: '\n' :: b))).take 8 =
      "Subject:".toList := by
    rw [show (8 : Nat) = "Subject:".toList.length from rfl]
    exact List.take_left _ _
  have h8drop : ("Subject:".toList ++ (w ++ (l ++ '\n' :: '\n' :: b))).drop 8 =
      w ++ (l ++ '\n' :: '\n' :: b) := by
    rw [show (8 : Nat) = "Subject:".toList.length from rfl]
    exact List.drop_left _ _
  have hws := takeWhile_append_stop jsWsChar w (l ++ '\n' :: '\n' :: b) hw
    (fun c hc => by
      cases l with
      | nil => exact absurd rfl hl
      | cons a t =>
        simp only [List.cons_append, List.head?_cons, Option.some.injEq] at hc
        subst hc
        exact hhead a rfl)
  simp only [List.append_assoc] at h8take h8drop ⊢
  rw [if_pos h8take, h8drop, hws.1, hws.2]
  exact tryWs_of_success _ _ _ (tryDotLine_exact l b hl hdot)

lemma extractSubjectBody_of_match (m : String) (l b : List Char)
    (hmatch : jsSubjectMatchL m.toList = some (l, b)) (hl : l ≠ []) (hb : b ≠ []) :
    extractSubjectBody m = ((jsTrimL l).asString, (jsTrimL b).asString) := by
  unfold extractSubjectBody
  rw [hmatch]
  simp [hl, hb]

/-- Claim C10: if the stored message matches `Subject: <line>` followed by a
blank line and a non-empty body, the created campaign stores the trimmed
line as subject and the trimmed body as message; otherwise (no match, or an
empty body group) it stores the first 50 characters of the message, trimmed,
with `(...)` appended, and the message itself unchanged. -/
theorem claim10_subject_extraction :
    (∀ (input : CampaignInput) (customers : List Customer) (spend : Customer → ℚ)
        (w l b : List Char),
      (∀ c ∈ w, jsWsChar c = true) → l ≠ [] → (∀ c ∈ l, dotOk c = true) →
      (∀ c, l.head? = some c → ¬ jsWsChar c = true) → b ≠ [] →
      input.message = ("Subject:".toList ++ w ++ l ++ '\n' :: '\n' :: b).asString →
      (createCampaign input customers spend).subject = (jsTrimL l).asString ∧
        (createCampaign input customers spend).message = (jsTrimL b).asString)
    ∧ (∀ (input : CampaignInput) (customers : List Customer) (spend : Customer → ℚ),
        jsSubjectMatchL input.message.toList = none →
        (createCampaign input customers spend).subject =
            (fallbackSubject input.message.toList).asString ∧
          (createCampaign input customers spend).message = input.message)
    ∧ (∀ (input : CampaignInput) (customers : List Customer) (spend : Customer → ℚ)
        (g1 : List Char),
        jsSubjectMatchL input.message.toList = some (g1, []) →
        (createCampaign input customers spend).subject =
            (fallbackSubject input.message.toList).asString ∧
          (createCampaign input customers spend).message = input.message) := by
  refine ⟨?_, ?_, ?_⟩
  · intro input customers spend w l b hw hl hdot hhead hb hmsg
    have htl : input.message.data = "Subject:".toList ++ w ++ l ++ '\n' :: '\n' :: b := by
      rw [hmsg]
      rfl
    have hmatch' : jsSubjectMatchL input.message.toList = some (l, b) := by
      show jsSubjectMatchL input.message.data = some (l, b)
      rw [htl]
      exact jsSubjectMatch_complete w l b hw hl hdot hhead
    have hext := extractSubjectBody_of_match input.message l b hmatch' hl hb
    exact ⟨by rw [show (createCampaign input customers spend).subject =
        (extractSubjectBody input.message).1 from rfl, hext],
      by rw [show (createCampaign input customers spend).message =
        (extractSubjectBody input.message).2 from rfl, hext]⟩
  · intro input customers spend hnone
    have hnone' : jsSubjectMatchL input.message.data = none := hnone
    constructor <;> simp [createCampaign, extractSubjectBody, String.toList, hnone']
  · intro input customers spend g1 hsome
    have hsome' : jsSubjectMatchL input.message.data = some (g1, []) := hsome
    constructor <;> simp [createCampaign, extractSubjectBody, String.toList, hsome']

/-- A create request whose message carries an extractable subject. -/
def c10Input : CampaignInput :=
  ⟨"c10", none, [⟨.name, .equals, .vstr "a", none⟩], "Subject: Hello\n\nWorld!", none⟩

/-- A create request whose message has no extractable subject. -/
def c10BadInput : CampaignInput :=
  ⟨"c10b", none, [⟨.name, .equals, .vstr "a", none⟩], "just a short message", none⟩

/-- Witness for `claim10_subject_extraction` at concrete messages. -/
theorem claim10_witness :
    ((createCampaign c10Input [] (fun _ => 0)).subject = (jsTrimL "Hello".toList).asString ∧
      (createCampaign c10Input [] (fun _ => 0)).message = (jsTrimL "World!".toList).asString) ∧
    ((createCampaign c10BadInput [] (fun _ => 0)).subject =
        (fallbackSubject "just a short message".toList).asString ∧
      (createCampaign c10BadInput [] (fun _ => 0)).message = "just a short message") := by
  constructor
  · exact claim10_subject_extraction.1 c10Input [] (fun _ => 0) " ".toList "Hello".toList
      "World!".toList (by decide) (by decide) (by decide) (by decide) (by decide) (by decide)
  · exact claim10_subject_extraction.2.1 c10BadInput [] (fun _ => 0) (by decide)

end MiniCrm
